import Mathlib

/-!
Shallow embedding of the MediBridge ICD-11 resolution pipeline.

Source files embedded here:
* `convert_icd11_to_json.py` — the offline builder of the ICD-11 lookup table;
* `mednlp_service.py` — the `/analyze` service that extracts entities
  (external NLP model, treated as a black-box function) and resolves each
  entity string against the lookup table.

Modelling conventions: Python strings are Lean `String`s (string methods are
re-implemented on the underlying character list so that the kernel can
evaluate them); a Python `dict` is an association list in insertion order
with in-place overwrite; Python exceptions are `Except`; the float
confidences `0.0`/`1.0` are the rationals `0`/`1` (no float arithmetic is
ever performed on them in the source).
-/

/-- Value stored in the ICD-11 lookup table, as built by
`convert_icd11_to_json.py`: the JSON object `{"code": ..., "desc": ...}`. -/
structure TaxonomyEntry where
  code : String
  desc : String
deriving DecidableEq

/-- Python `dict` with string keys and `TaxonomyEntry` values, modelled as an
association list kept in insertion order with unique keys. -/
abbrev LookupTable := List (String × TaxonomyEntry)

/-- Python `d.get(k)` / `d[k]`: the value at key `k`, or `None`. -/
def dictGet : LookupTable → String → Option TaxonomyEntry
  | [], _ => none
  | (k1, v1) :: rest, k => if k1 = k then some v1 else dictGet rest k

/-- Python `d[k] = v`: overwrite in place when the key exists, else append. -/
def dictInsert : LookupTable → String → TaxonomyEntry → LookupTable
  | [], k, v => [(k, v)]
  | (k1, v1) :: rest, k, v =>
      if k1 = k then (k, v) :: rest else (k1, v1) :: dictInsert rest k v

/-- Remove from a character list the longest prefix and the longest suffix
whose characters satisfy `p`. -/
def stripWhile (p : Char → Bool) (l : List Char) : List Char :=
  ((l.dropWhile p).reverse.dropWhile p).reverse

/-- Python `str.strip()`: remove leading and trailing whitespace. -/
def pyStrip (s : String) : String :=
  ⟨stripWhile (fun c => c.isWhitespace) s.data⟩

/-- Python `str.strip('"')`: remove leading and trailing double-quote
characters. -/
def pyStripQuotes (s : String) : String :=
  ⟨stripWhile (fun c => decide (c = '"')) s.data⟩

/-- Python `str.replace("-", "")`: remove every hyphen character. -/
def pyRemoveHyphens (s : String) : String :=
  ⟨s.data.filter (fun c => decide (c ≠ '-'))⟩

/-- Python `str.lower()` (the source data is ASCII, where `Char.toLower`
agrees with Python's case folding). -/
def pyLower (s : String) : String :=
  ⟨s.data.map Char.toLower⟩

/-- Row of the tab-separated taxonomy export with the three fields that
`convert_icd11_to_json.py` reads; a field missing from the file reads as `""`
(`row.get(..., "")`). -/
structure Row where
  Code : String
  Title : String
  ClassKind : String
deriving DecidableEq

/-- Title cleaning on line 13 of `convert_icd11_to_json.py`:
`row.get("Title", "").strip().strip('"').replace("-", "").strip()`. -/
def cleanTitle (s : String) : String :=
  pyStrip (pyRemoveHyphens (pyStripQuotes (pyStrip s)))

/-- Loop body of `convert_icd11_to_json.py` (lines 11-18) for one row:
trim the fields, clean the title, and insert the entry when the row is an
accepted category row (Python truthiness of a string is `≠ ""`). -/
def icd_dict_step (m : LookupTable) (row : Row) : LookupTable :=
  let code := pyStrip row.Code
  let title := cleanTitle row.Title
  let class_kind := pyStrip row.ClassKind
  if code ≠ "" ∧ title ≠ "" ∧ class_kind = "category" then
    dictInsert m (pyLower title) ⟨code, title⟩
  else
    m

/-- Lookup table built by `convert_icd11_to_json.py` from the export rows. -/
def icd_dict (rows : List Row) : LookupTable :=
  rows.foldl icd_dict_step []

/-- Entity produced by the external NLP extractor (`ent.text`, `ent.label_`);
the extractor itself is out of scope and treated as a black-box function
`String → List ExtractedEntity`. -/
structure ExtractedEntity where
  text : String
  label : String
deriving DecidableEq

/-- Element of the `entities` list of the response (`EntityResult` of
`mednlp_service.py`). -/
structure EntityResult where
  text : String
  label : String
  icd_code : Option String
  icd_description : Option String
  confidence : ℚ
deriving DecidableEq

/-- Element of the `icd_codes` list of the response (the dict literal built
on lines 81-86 of `mednlp_service.py`). -/
structure CodeResult where
  entity : String
  icd_code : String
  icd_description : Option String
  confidence : ℚ
deriving DecidableEq

/-- Response of the `/analyze` endpoint. -/
structure AnalyzeResponse where
  entities : List EntityResult
  icd_codes : List CodeResult
deriving DecidableEq

/-- FastAPI `HTTPException(status_code, detail)`. -/
structure HTTPException where
  status_code : Nat
  detail : String
deriving DecidableEq

/-- Per-entity resolution, read off lines 68-79 and 88-94 of
`mednlp_service.py`: normalize the entity text (strip, lower), look it up,
and build the entity-level result that the loop appends to `entities`. -/
def resolve (table : LookupTable) (ent : ExtractedEntity) : EntityResult :=
  match dictGet table (pyLower (pyStrip ent.text)) with
  | some icd_info =>
      { text := ent.text, label := ent.label, icd_code := some icd_info.code,
        icd_description := some icd_info.desc, confidence := 1 }
  | none =>
      { text := ent.text, label := ent.label, icd_code := none,
        icd_description := none, confidence := 0 }

/-- Mutable state of the `for ent in doc.ents` loop of `mednlp_service.py`:
the `entities` and `icd_codes` accumulators and the `seen_codes` set
(modelled as a list, of which only membership is observed). -/
structure LoopState where
  entities : List EntityResult
  icd_codes : List CodeResult
  seen_codes : List String
deriving DecidableEq

/-- One iteration of the loop on lines 67-94 of `mednlp_service.py`: when the
lookup hits and the code is truthy and unseen, append a deduplicated
`CodeResult` and mark the code seen; in every case append the entity-level
result (whose fields are those computed by `resolve`). -/
def analyzeStep (table : LookupTable) (s : LoopState) (ent : ExtractedEntity) :
    LoopState :=
  match dictGet table (pyLower (pyStrip ent.text)) with
  | some icd_info =>
      let icd_code := icd_info.code
      let icd_description := icd_info.desc
      let s1 :=
        if icd_code ≠ "" ∧ icd_code ∉ s.seen_codes then
          { s with
            icd_codes := s.icd_codes ++
              [{ entity := ent.text, icd_code := icd_code,
                 icd_description := some icd_description, confidence := 1 }],
            seen_codes := s.seen_codes ++ [icd_code] }
        else s
      { s1 with
        entities := s1.entities ++
          [{ text := ent.text, label := ent.label, icd_code := some icd_code,
             icd_description := some icd_description, confidence := 1 }] }
  | none =>
      { s with
        entities := s.entities ++
          [{ text := ent.text, label := ent.label, icd_code := none,
             icd_description := none, confidence := 0 }] }

/-- Resolution and aggregation of the extracted entities (lines 63-96 of
`mednlp_service.py`): run the loop from empty accumulators and return
`{"entities": entities, "icd_codes": icd_codes}`. -/
def processEntities (table : LookupTable) (ents : List ExtractedEntity) :
    AnalyzeResponse :=
  let final := ents.foldl (analyzeStep table) ⟨[], [], []⟩
  { entities := final.entities, icd_codes := final.icd_codes }

/-- Line 58 of `mednlp_service.py`: `" ".join([...]).strip()`, joining the
three request fields with single spaces (a `None` field reads as `""` via
`or ""`) and stripping the result. -/
def combinedText (diagnosis prescription treatment : Option String) : String :=
  pyStrip ((diagnosis.getD "") ++ " " ++ (prescription.getD "") ++ " " ++
    (treatment.getD ""))

/-- Body of the `try:` block of `analyze` (lines 58-96 of
`mednlp_service.py`): empty combined text raises `HTTPException(400)`,
otherwise the extractor runs on the combined text and its entities are
resolved and aggregated. -/
def analyzeBody (table : LookupTable)
    (extractor : String → List ExtractedEntity)
    (diagnosis prescription treatment : Option String) :
    Except HTTPException AnalyzeResponse :=
  let text := combinedText diagnosis prescription treatment
  if text = "" then
    Except.error ⟨400, "No text provided."⟩
  else
    Except.ok (processEntities table (extractor text))

/-- Rendering of `str(e)` for a Starlette/FastAPI `HTTPException`:
`f"{status_code}: {detail}"`. -/
def httpExceptionStr (e : HTTPException) : String :=
  toString e.status_code ++ ": " ++ e.detail

/-- The `/analyze` endpoint (lines 55-99 of `mednlp_service.py`). The
`except Exception` handler on lines 97-99 also catches the
`HTTPException(400)` raised inside the `try:` block (FastAPI's
`HTTPException` subclasses `Exception`), so every error leaves the endpoint
as a 500 whose detail is `str` of the caught exception. -/
def analyze (table : LookupTable) (extractor : String → List ExtractedEntity)
    (diagnosis prescription treatment : Option String) :
    Except HTTPException AnalyzeResponse :=
  match analyzeBody table extractor diagnosis prescription treatment with
  | Except.ok r => Except.ok r
  | Except.error e => Except.error ⟨500, httpExceptionStr e⟩

/-- Startup load of the ICD-11 dictionary (lines 25-31 of
`mednlp_service.py`): the outcome of reading and parsing the JSON file is an
`Except`, and any failure degrades to the empty dict instead of aborting. -/
def loadICD11Dict (loadResult : Except String LookupTable) : LookupTable :=
  match loadResult with
  | Except.ok d => d
  | Except.error _ => []

/-- Code an extracted entity resolves to when its normalized text hits the
table (the `icd_code` variable of the loop), `none` on a miss. -/
def matchedCode (table : LookupTable) (ent : ExtractedEntity) : Option String :=
  match dictGet table (pyLower (pyStrip ent.text)) with
  | some icd_info => some icd_info.code
  | none => none

/-- Follows the wording of the spec (§4.4) for comparison in claim C2:
concatenate the non-empty fields with a single separating space, then
trim. -/
def specNonEmptyJoin (diagnosis prescription treatment : String) : String :=
  pyStrip (String.intercalate " "
    (List.filter (fun s => decide (s ≠ ""))
      [diagnosis, prescription, treatment]))

/-- Key/value pair a row contributes when the builder accepts it, `none`
otherwise (the accept condition of `icd_dict_step`). -/
def rowEntry (row : Row) : Option (String × TaxonomyEntry) :=
  let code := pyStrip row.Code
  let title := cleanTitle row.Title
  let class_kind := pyStrip row.ClassKind
  if code ≠ "" ∧ title ≠ "" ∧ class_kind = "category" then
    some (pyLower title, ⟨code, title⟩)
  else
    none

/-- Follows the wording of the spec for claim C7: the entry derived from the
last accepted row that produces the given key, if any. -/
def specLastAcceptedEntry : List Row → String → Option TaxonomyEntry
  | [], _ => none
  | row :: rest, k =>
      match specLastAcceptedEntry rest k with
      | some v => some v
      | none =>
          match rowEntry row with
          | some (k2, v) => if k2 = k then some v else none
          | none => none

/-- Loop-state invariant of the aggregation loop: the emitted codes are
pairwise distinct, `seen_codes` holds exactly the emitted codes, and every
emitted `CodeResult` carries confidence `1` and a non-empty code. -/
def SeenInv (s : LoopState) : Prop :=
  (s.icd_codes.map CodeResult.icd_code).Nodup ∧
  (∀ c, c ∈ s.seen_codes ↔ c ∈ s.icd_codes.map CodeResult.icd_code) ∧
  (∀ cr ∈ s.icd_codes, cr.confidence = 1 ∧ cr.icd_code ≠ "")

theorem dictGet_dictInsert (m : LookupTable) (k : String) (v : TaxonomyEntry)
    (k2 : String) :
    dictGet (dictInsert m k v) k2 =
      if k = k2 then some v else dictGet m k2 := by
  induction m with
  | nil => simp [dictInsert, dictGet]
  | cons p rest ih =>
      obtain ⟨k1, v1⟩ := p
      by_cases h1 : k1 = k
      · subst h1
        by_cases h2 : k1 = k2
        · subst h2; simp [dictInsert, dictGet]
        · simp [dictInsert, dictGet, h2]
      · by_cases h2 : k1 = k2
        · subst h2
          have hk : ¬(k = k1) := fun h => h1 h.symm
          simp [dictInsert, dictGet, h1, hk]
        · simp [dictInsert, dictGet, h1, h2, ih]

theorem mem_dictInsert (m : LookupTable) (k : String) (v : TaxonomyEntry)
    (p : String × TaxonomyEntry) (h : p ∈ dictInsert m k v) :
    p ∈ m ∨ p = (k, v) := by
  induction m with
  | nil =>
      simp [dictInsert] at h
      exact Or.inr h
  | cons q rest ih =>
      obtain ⟨k1, v1⟩ := q
      by_cases h1 : k1 = k
      · subst h1
        simp [dictInsert] at h
        rcases h with h | h
        · exact Or.inr (by simp [h])
        · exact Or.inl (List.mem_cons_of_mem _ h)
      · simp [dictInsert, h1] at h
        rcases h with h | h
        · exact Or.inl (by simp [h])
        · rcases ih h with h2 | h2
          · exact Or.inl (List.mem_cons_of_mem _ h2)
          · exact Or.inr h2

theorem dictGet_mem (m : LookupTable) (k : String) (v : TaxonomyEntry)
    (h : dictGet m k = some v) : (k, v) ∈ m := by
  induction m with
  | nil => simp [dictGet] at h
  | cons p rest ih =>
      obtain ⟨k1, v1⟩ := p
      by_cases h1 : k1 = k
      · subst h1
        simp [dictGet] at h
        simp [h]
      · simp [dictGet, h1] at h
        exact List.mem_cons_of_mem _ (ih h)

theorem icd_dict_step_eq (m : LookupTable) (row : Row) :
    icd_dict_step m row =
      match rowEntry row with
      | some (k, v) => dictInsert m k v
      | none => m := by
  by_cases h : pyStrip row.Code ≠ "" ∧ cleanTitle row.Title ≠ "" ∧
      pyStrip row.ClassKind = "category"
  · simp [icd_dict_step, rowEntry, h]
  · simp [icd_dict_step, rowEntry, h]

theorem rowEntry_some (row : Row) (k : String) (v : TaxonomyEntry)
    (h : rowEntry row = some (k, v)) :
    v.code = pyStrip row.Code ∧ v.desc = cleanTitle row.Title ∧
      k = pyLower (cleanTitle row.Title) ∧
      pyStrip row.Code ≠ "" ∧ cleanTitle row.Title ≠ "" ∧
      pyStrip row.ClassKind = "category" := by
  by_cases hc : pyStrip row.Code ≠ "" ∧ cleanTitle row.Title ≠ "" ∧
      pyStrip row.ClassKind = "category"
  · simp only [rowEntry] at h
    rw [if_pos hc] at h
    simp only [Option.some.injEq, Prod.mk.injEq] at h
    obtain ⟨hk, hv⟩ := h
    refine ⟨?_, ?_, hk.symm, hc.1, hc.2.1, hc.2.2⟩
    · rw [← hv]
    · rw [← hv]
  · simp only [rowEntry] at h
    rw [if_neg hc] at h
    exact Option.noConfusion h

theorem dictGet_foldl_icd_dict_step (rows : List Row) :
    ∀ (m : LookupTable) (k : String),
      dictGet (rows.foldl icd_dict_step m) k =
        match specLastAcceptedEntry rows k with
        | some v => some v
        | none => dictGet m k := by
  induction rows with
  | nil => intro m k; simp [specLastAcceptedEntry]
  | cons row rest ih =>
      intro m k
      simp only [List.foldl_cons, specLastAcceptedEntry]
      rw [ih]
      cases hrest : specLastAcceptedEntry rest k with
      | some v => simp
      | none =>
          simp only []
          rw [icd_dict_step_eq]
          cases hrow : rowEntry row with
          | none => simp
          | some p =>
              obtain ⟨k2, v⟩ := p
              simp only [dictGet_dictInsert]
              by_cases h : k2 = k
              · simp [h]
              · simp [h]

theorem specLastAcceptedEntry_isSome (rows : List Row) (row : Row) (k : String)
    (v : TaxonomyEntry) (hmem : row ∈ rows)
    (hrow : rowEntry row = some (k, v)) :
    (specLastAcceptedEntry rows k).isSome := by
  induction hmem with
  | head rest =>
      simp only [specLastAcceptedEntry]
      cases hs : specLastAcceptedEntry rest k with
      | some w => simp
      | none => simp [hrow]
  | tail r hmem ih =>
      simp only [specLastAcceptedEntry]
      cases hs : specLastAcceptedEntry _ k with
      | some w => simp
      | none => rw [hs] at ih; simp at ih

theorem mem_foldl_icd_dict_step (rows : List Row) :
    ∀ m : LookupTable,
      (∀ p ∈ m, p.2.code ≠ "" ∧ p.2.desc ≠ "" ∧ p.1 = pyLower p.2.desc) →
      ∀ p ∈ rows.foldl icd_dict_step m,
        p.2.code ≠ "" ∧ p.2.desc ≠ "" ∧ p.1 = pyLower p.2.desc := by
  induction rows with
  | nil => intro m hm; simpa using hm
  | cons row rest ih =>
      intro m hm
      simp only [List.foldl_cons]
      apply ih
      intro p hp
      rw [icd_dict_step_eq] at hp
      cases hrow : rowEntry row with
      | none => rw [hrow] at hp; exact hm p hp
      | some q =>
          obtain ⟨k, v⟩ := q
          rw [hrow] at hp
          rcases mem_dictInsert m k v p hp with h | h
          · exact hm p h
          · subst h
            obtain ⟨hc, hd, hk, hcode, htitle, _⟩ := rowEntry_some row k v hrow
            refine ⟨?_, ?_, ?_⟩
            · rw [hc]; exact hcode
            · rw [hd]; exact htitle
            · rw [hk, hd]

theorem dictGet_isSome_foldl (rows : List Row) (m : LookupTable) (k : String)
    (h : (dictGet m k).isSome) :
    (dictGet (rows.foldl icd_dict_step m) k).isSome := by
  rw [dictGet_foldl_icd_dict_step]
  cases hs : specLastAcceptedEntry rows k with
  | some v => simp
  | none => simpa using h

theorem dictGet_isSome_of_accepted (rows : List Row) (row : Row) (k : String)
    (v : TaxonomyEntry) (hmem : row ∈ rows)
    (hrow : rowEntry row = some (k, v)) :
    (dictGet (icd_dict rows) k).isSome := by
  rw [icd_dict, dictGet_foldl_icd_dict_step]
  have := specLastAcceptedEntry_isSome rows row k v hmem hrow
  cases hs : specLastAcceptedEntry rows k with
  | some w => simp
  | none => rw [hs] at this; simp at this

/-- C7: the final lookup table maps each key to the entry derived from the
last accepted row in input order that produces that key (later rows silently
overwrite earlier ones; the build never fails). -/
theorem c7_last_accepted_row_wins (rows : List Row) (k : String) :
    dictGet (icd_dict rows) k = specLastAcceptedEntry rows k := by
  rw [icd_dict, dictGet_foldl_icd_dict_step]
  cases hs : specLastAcceptedEntry rows k with
  | some v => rfl
  | none => rfl

/-- C4 is false as stated: the builder compares the *trimmed* `ClassKind`
against `"category"`, so a row whose raw `ClassKind` is `" category "` (not
equal to `"category"`) is nevertheless inserted into the table. -/
theorem c4_counterexample_classkind_not_trimmed :
    (icd_dict [⟨"A", "t", " category "⟩]).length = 1 ∧
      (" category " : String) ≠ "category" := by decide

/-- C4 (amended): for every input row, the builder inserts an entry if and
only if the trimmed `ClassKind` equals `"category"` and both the trimmed
`Code` and the cleaned `Title` are non-empty; the inserted key is the
case-folded cleaned title and the value is (trimmed code, cleaned title), so
no table entry ever has an empty code or description, and every key is the
case-folded form of its entry's description. -/
theorem c4_builder_accept_characterization :
    (∀ (m : LookupTable) (row : Row),
        icd_dict_step m row =
          if pyStrip row.ClassKind = "category" ∧ pyStrip row.Code ≠ "" ∧
              cleanTitle row.Title ≠ "" then
            dictInsert m (pyLower (cleanTitle row.Title))
              ⟨pyStrip row.Code, cleanTitle row.Title⟩
          else m) ∧
    ∀ (rows : List Row) (p : String × TaxonomyEntry), p ∈ icd_dict rows →
      p.2.code ≠ "" ∧ p.2.desc ≠ "" ∧ p.1 = pyLower p.2.desc := by
  constructor
  · intro m row
    by_cases h : pyStrip row.Code ≠ "" ∧ cleanTitle row.Title ≠ "" ∧
        pyStrip row.ClassKind = "category"
    · rw [if_pos ⟨h.2.2, h.1, h.2.1⟩]
      simp [icd_dict_step, h]
    · rw [if_neg (fun hx => h ⟨hx.2.1, hx.2.2, hx.1⟩)]
      simp [icd_dict_step, h]
  · intro rows p hp
    exact mem_foldl_icd_dict_step rows [] (by simp) p hp

theorem c4_builder_accept_characterization_witness :
    ("fracture", (⟨"FA01", "Fracture"⟩ : TaxonomyEntry)) ∈
        icd_dict [⟨"FA01", "Fracture", "category"⟩] ∧
      (("FA01" : String) ≠ "" ∧ ("Fracture" : String) ≠ "" ∧
        "fracture" = pyLower "Fracture") :=
  ⟨by decide,
   c4_builder_accept_characterization.2 [⟨"FA01", "Fracture", "category"⟩]
     ("fracture", ⟨"FA01", "Fracture"⟩) (by decide)⟩

/-- C3 is false as stated: the builder removes hyphens from titles while the
resolver only trims and case-folds, so for the accepted row with raw title
`"X-ray"` (stored under key `"xray"`) an entity whose text equals that raw
title resolves with confidence `0`, not a hit. -/
theorem c3_counterexample_hyphen_title :
    (icd_dict [⟨"XA", "X-ray", "category"⟩]).length = 1 ∧
      (resolve (icd_dict [⟨"XA", "X-ray", "category"⟩])
          ⟨"X-ray", "DISEASE"⟩).confidence = 0 := by decide

/-- C3 (amended): the resolver's normalization (trim, case-fold) matches the
builder's key normalization only on titles that the title cleaning leaves
unchanged: for every accepted row whose cleaned title equals its trimmed raw
title (in particular any title without hyphens and without surrounding
double quotes), resolving an entity whose text equals the raw title yields a
hit with confidence `1`; titles altered by the cleaning (hyphens or
surrounding double quotes) are not guaranteed to match. -/
theorem c3_resolver_hits_unchanged_titles (rows : List Row) (row : Row)
    (label : String) (hmem : row ∈ rows)
    (hcode : pyStrip row.Code ≠ "") (htitle : cleanTitle row.Title ≠ "")
    (hkind : pyStrip row.ClassKind = "category")
    (hclean : cleanTitle row.Title = pyStrip row.Title) :
    (resolve (icd_dict rows) ⟨row.Title, label⟩).confidence = 1 ∧
      (resolve (icd_dict rows) ⟨row.Title, label⟩).icd_code.isSome := by
  have hrow : rowEntry row =
      some (pyLower (cleanTitle row.Title),
        ⟨pyStrip row.Code, cleanTitle row.Title⟩) := by
    simp only [rowEntry]
    rw [if_pos ⟨hcode, htitle, hkind⟩]
  have hsome := dictGet_isSome_of_accepted rows row _ _ hmem hrow
  obtain ⟨info, hinfo⟩ := Option.isSome_iff_exists.mp hsome
  have hnorm : pyLower (pyStrip ((⟨row.Title, label⟩ : ExtractedEntity).text)) =
      pyLower (cleanTitle row.Title) := by
    simp only []
    rw [hclean]
  constructor
  · simp only [resolve, hnorm, hinfo]
  · simp only [resolve, hnorm, hinfo]
    simp

theorem c3_resolver_hits_unchanged_titles_witness :
    ((⟨"FA01", "Fracture", "category"⟩ : Row) ∈
        [(⟨"FA01", "Fracture", "category"⟩ : Row)] ∧
      pyStrip "FA01" ≠ "" ∧ cleanTitle "Fracture" ≠ "" ∧
      pyStrip "category" = "category" ∧
      cleanTitle "Fracture" = pyStrip "Fracture") ∧
    (resolve (icd_dict [⟨"FA01", "Fracture", "category"⟩])
        ⟨"Fracture", "DISEASE"⟩).confidence = 1 :=
  ⟨⟨by decide, by decide, by decide, by decide, by decide⟩,
   (c3_resolver_hits_unchanged_titles [⟨"FA01", "Fracture", "category"⟩]
      ⟨"FA01", "Fracture", "category"⟩ "DISEASE" (by decide) (by decide)
      (by decide) (by decide) (by decide)).1⟩

theorem analyzeStep_of_new_code (table : LookupTable) (s : LoopState)
    (ent : ExtractedEntity) (info : TaxonomyEntry)
    (h : dictGet table (pyLower (pyStrip ent.text)) = some info)
    (hc : info.code ≠ "" ∧ info.code ∉ s.seen_codes) :
    analyzeStep table s ent =
      ⟨s.entities ++
          [⟨ent.text, ent.label, some info.code, some info.desc, 1⟩],
        s.icd_codes ++ [⟨ent.text, info.code, some info.desc, 1⟩],
        s.seen_codes ++ [info.code]⟩ := by
  simp only [analyzeStep, h]
  rw [if_pos hc]

theorem analyzeStep_of_seen_or_empty (table : LookupTable) (s : LoopState)
    (ent : ExtractedEntity) (info : TaxonomyEntry)
    (h : dictGet table (pyLower (pyStrip ent.text)) = some info)
    (hc : ¬(info.code ≠ "" ∧ info.code ∉ s.seen_codes)) :
    analyzeStep table s ent =
      { s with entities := s.entities ++
          [⟨ent.text, ent.label, some info.code, some info.desc, 1⟩] } := by
  simp only [analyzeStep, h]
  rw [if_neg hc]

theorem analyzeStep_of_miss (table : LookupTable) (s : LoopState)
    (ent : ExtractedEntity)
    (h : dictGet table (pyLower (pyStrip ent.text)) = none) :
    analyzeStep table s ent =
      { s with entities := s.entities ++
          [⟨ent.text, ent.label, none, none, 0⟩] } := by
  simp only [analyzeStep, h]

theorem analyzeStep_entities_eq (table : LookupTable) (s : LoopState)
    (ent : ExtractedEntity) :
    (analyzeStep table s ent).entities =
      s.entities ++ [resolve table ent] := by
  cases h : dictGet table (pyLower (pyStrip ent.text)) with
  | none => rw [analyzeStep_of_miss table s ent h]; simp [resolve, h]
  | some info =>
      by_cases hc : info.code ≠ "" ∧ info.code ∉ s.seen_codes
      · rw [analyzeStep_of_new_code table s ent info h hc]; simp [resolve, h]
      · rw [analyzeStep_of_seen_or_empty table s ent info h hc]
        simp [resolve, h]

theorem foldl_analyzeStep_entities (table : LookupTable)
    (ents : List ExtractedEntity) :
    ∀ s : LoopState,
      (ents.foldl (analyzeStep table) s).entities =
        s.entities ++ ents.map (resolve table) := by
  induction ents with
  | nil => intro s; simp
  | cons e rest ih =>
      intro s
      simp only [List.foldl_cons, List.map_cons]
      rw [ih, analyzeStep_entities_eq]
      simp

theorem seen_codes_subset_step (table : LookupTable) (s : LoopState)
    (ent : ExtractedEntity) :
    s.seen_codes ⊆ (analyzeStep table s ent).seen_codes := by
  cases h : dictGet table (pyLower (pyStrip ent.text)) with
  | none =>
      rw [analyzeStep_of_miss table s ent h]
      exact fun c hc2 => hc2
  | some info =>
      by_cases hc : info.code ≠ "" ∧ info.code ∉ s.seen_codes
      · rw [analyzeStep_of_new_code table s ent info h hc]
        exact List.subset_append_left _ _
      · rw [analyzeStep_of_seen_or_empty table s ent info h hc]
        exact fun c hc2 => hc2

theorem seen_codes_subset_foldl (table : LookupTable)
    (ents : List ExtractedEntity) :
    ∀ s : LoopState,
      s.seen_codes ⊆ (ents.foldl (analyzeStep table) s).seen_codes := by
  induction ents with
  | nil => intro s; exact fun c hc => hc
  | cons e rest ih =>
      intro s
      exact fun c hc =>
        ih (analyzeStep table s e) (seen_codes_subset_step table s e hc)

theorem icd_codes_prefix_foldl (table : LookupTable)
    (ents : List ExtractedEntity) :
    ∀ s : LoopState, ∃ t : List CodeResult,
      (ents.foldl (analyzeStep table) s).icd_codes = s.icd_codes ++ t := by
  induction ents with
  | nil => intro s; exact ⟨[], by simp⟩
  | cons e rest ih =>
      intro s
      cases h : dictGet table (pyLower (pyStrip e.text)) with
      | none =>
          obtain ⟨t, ht⟩ := ih (analyzeStep table s e)
          refine ⟨t, ?_⟩
          rw [List.foldl_cons, ht, analyzeStep_of_miss table s e h]
      | some info =>
          by_cases hc : info.code ≠ "" ∧ info.code ∉ s.seen_codes
          · obtain ⟨t, ht⟩ := ih (analyzeStep table s e)
            refine ⟨⟨e.text, info.code, some info.desc, 1⟩ :: t, ?_⟩
            rw [List.foldl_cons, ht, analyzeStep_of_new_code table s e info h hc]
            simp
          · obtain ⟨t, ht⟩ := ih (analyzeStep table s e)
            refine ⟨t, ?_⟩
            rw [List.foldl_cons, ht,
              analyzeStep_of_seen_or_empty table s e info h hc]

theorem seenInv_step (table : LookupTable) (s : LoopState)
    (ent : ExtractedEntity) (h : SeenInv s) :
    SeenInv (analyzeStep table s ent) := by
  obtain ⟨hnodup, hseen, hconf⟩ := h
  cases hd : dictGet table (pyLower (pyStrip ent.text)) with
  | none =>
      rw [analyzeStep_of_miss table s ent hd]
      exact ⟨hnodup, hseen, hconf⟩
  | some info =>
      by_cases hc : info.code ≠ "" ∧ info.code ∉ s.seen_codes
      · rw [analyzeStep_of_new_code table s ent info hd hc]
        refine ⟨?_, ?_, ?_⟩
        · simp only [List.map_append, List.map_cons, List.map_nil]
          rw [List.nodup_append]
          refine ⟨hnodup, List.nodup_singleton _, ?_⟩
          intro c hc1 hc2
          simp only [List.mem_singleton] at hc2
          subst hc2
          exact hc.2 ((hseen info.code).mpr hc1)
        · intro c
          simp only [List.mem_append, List.map_append, List.map_cons,
            List.map_nil, List.mem_singleton, hseen c]
        · intro cr hcr
          rcases List.mem_append.mp hcr with h1 | h1
          · exact hconf cr h1
          · simp only [List.mem_singleton] at h1
            subst h1
            exact ⟨rfl, hc.1⟩
      · rw [analyzeStep_of_seen_or_empty table s ent info hd hc]
        exact ⟨hnodup, hseen, hconf⟩

theorem seenInv_foldl (table : LookupTable) (ents : List ExtractedEntity) :
    ∀ s : LoopState, SeenInv s →
      SeenInv (ents.foldl (analyzeStep table) s) := by
  induction ents with
  | nil => intro s h; exact h
  | cons e rest ih =>
      intro s h
      exact ih (analyzeStep table s e) (seenInv_step table s e h)

theorem foldl_icd_codes_first_match (table : LookupTable)
    (ents : List ExtractedEntity) :
    ∀ s : LoopState, SeenInv s →
      ∀ cr ∈ (ents.foldl (analyzeStep table) s).icd_codes,
        cr.icd_code ∉ s.seen_codes →
        cr.icd_code ≠ "" ∧
          ∃ e, ents.find?
              (fun x => decide (matchedCode table x = some cr.icd_code)) =
                some e ∧
            cr.entity = e.text := by
  induction ents with
  | nil =>
      intro s hs cr hcr hns
      exact absurd ((hs.2.1 cr.icd_code).mpr
        (List.mem_map.mpr ⟨cr, hcr, rfl⟩)) hns
  | cons e rest ih =>
      intro s hs cr hcr hns
      rw [List.foldl_cons] at hcr
      cases hd : dictGet table (pyLower (pyStrip e.text)) with
      | none =>
          have hstep := analyzeStep_of_miss table s e hd
          have hsc : (analyzeStep table s e).seen_codes = s.seen_codes := by
            rw [hstep]
          have hm : matchedCode table e = none := by
            simp [matchedCode, hd]
          have hs1 : SeenInv (analyzeStep table s e) :=
            seenInv_step table s e hs
          have hns1 : cr.icd_code ∉ (analyzeStep table s e).seen_codes := by
            rw [hsc]; exact hns
          obtain ⟨hne, e2, he2, het⟩ := ih _ hs1 cr hcr hns1
          refine ⟨hne, e2, ?_, het⟩
          rw [List.find?_cons_of_neg _ (by simp [hm])]
          exact he2
      | some info =>
          by_cases hc : info.code ≠ "" ∧ info.code ∉ s.seen_codes
          · have hstep := analyzeStep_of_new_code table s e info hd hc
            have hm : matchedCode table e = some info.code := by
              simp [matchedCode, hd]
            have hs1 : SeenInv (analyzeStep table s e) :=
              seenInv_step table s e hs
            have hic : (analyzeStep table s e).icd_codes =
                s.icd_codes ++ [⟨e.text, info.code, some info.desc, 1⟩] := by
              rw [hstep]
            have hsc : (analyzeStep table s e).seen_codes =
                s.seen_codes ++ [info.code] := by
              rw [hstep]
            by_cases heq : cr.icd_code = info.code
            · -- cr must be the CodeResult appended for e
              have hfin : SeenInv (rest.foldl (analyzeStep table)
                  (analyzeStep table s e)) := seenInv_foldl table rest _ hs1
              obtain ⟨t, ht⟩ := icd_codes_prefix_foldl table rest
                (analyzeStep table s e)
              have hnd := hfin.1
              rw [ht, hic] at hcr hnd
              simp only [List.map_append, List.map_cons, List.map_nil] at hnd
              rw [List.nodup_append] at hnd
              obtain ⟨hnd1, hnd2, hdisj⟩ := hnd
              have hcr0 : cr = ⟨e.text, info.code, some info.desc, 1⟩ := by
                rcases List.mem_append.mp hcr with h1 | h1
                · rcases List.mem_append.mp h1 with h2 | h2
                  · exact absurd ((hs.2.1 cr.icd_code).mpr
                      (List.mem_map.mpr ⟨cr, h2, rfl⟩)) hns
                  · simpa using h2
                · exfalso
                  have hct : info.code ∈ t.map CodeResult.icd_code :=
                    List.mem_map.mpr ⟨cr, h1, heq⟩
                  exact hdisj (List.mem_append.mpr
                    (Or.inr (List.mem_singleton.mpr rfl))) hct
              subst hcr0
              refine ⟨hc.1, e, ?_, rfl⟩
              rw [List.find?_cons_of_pos _ (by simp [hm])]
            · -- cr was emitted while processing rest
              have hns1 : cr.icd_code ∉ (analyzeStep table s e).seen_codes := by
                rw [hsc]
                intro hmem
                rcases List.mem_append.mp hmem with h1 | h1
                · exact hns h1
                · exact heq (List.mem_singleton.mp h1)
              obtain ⟨hne, e2, he2, het⟩ := ih _ hs1 cr hcr hns1
              refine ⟨hne, e2, ?_, het⟩
              rw [List.find?_cons_of_neg _ (by simp [hm, Ne.symm heq])]
              exact he2
          · have hstep := analyzeStep_of_seen_or_empty table s e info hd hc
            have hm : matchedCode table e = some info.code := by
              simp [matchedCode, hd]
            have hs1 : SeenInv (analyzeStep table s e) :=
              seenInv_step table s e hs
            have hsc : (analyzeStep table s e).seen_codes = s.seen_codes := by
              rw [hstep]
            have hns1 : cr.icd_code ∉ (analyzeStep table s e).seen_codes := by
              rw [hsc]; exact hns
            obtain ⟨hne, e2, he2, het⟩ := ih _ hs1 cr hcr hns1
            have hneq : info.code ≠ cr.icd_code := by
              intro h
              apply hc
              constructor
              · rw [h]; exact hne
              · rw [h]; exact hns
            refine ⟨hne, e2, ?_, het⟩
            rw [List.find?_cons_of_neg _ (by simp [hm, hneq])]
            exact he2

theorem resolve_icd_code_eq_matchedCode (table : LookupTable)
    (ent : ExtractedEntity) :
    (resolve table ent).icd_code = matchedCode table ent := by
  unfold resolve matchedCode
  cases dictGet table (pyLower (pyStrip ent.text)) with
  | some info => rfl
  | none => rfl

theorem matched_mem_seen_foldl (table : LookupTable)
    (ents : List ExtractedEntity) (c : String) :
    ∀ s : LoopState, ∀ e ∈ ents, matchedCode table e = some c → c ≠ "" →
      c ∈ (ents.foldl (analyzeStep table) s).seen_codes := by
  induction ents with
  | nil => intro s e he; simp at he
  | cons e2 rest ih =>
      intro s e he hm hc
      rw [List.foldl_cons]
      rcases List.mem_cons.mp he with h | h
      · subst h
        apply seen_codes_subset_foldl table rest (analyzeStep table s e)
        cases hd : dictGet table (pyLower (pyStrip e.text)) with
        | none => simp [matchedCode, hd] at hm
        | some info =>
            have hcode : info.code = c := by
              simp [matchedCode, hd] at hm
              exact hm
            by_cases hcc : info.code ≠ "" ∧ info.code ∉ s.seen_codes
            · rw [analyzeStep_of_new_code table s e info hd hcc]
              simp [hcode]
            · rw [analyzeStep_of_seen_or_empty table s e info hd hcc]
              rw [not_and_or] at hcc
              rcases hcc with h1 | h1
              · exact absurd (hcode ▸ not_not.mp h1) hc
              · exact hcode ▸ not_not.mp h1
      · exact ih (analyzeStep table s e2) e h hm hc

theorem analyzeStep_empty_table (s : LoopState) (ent : ExtractedEntity) :
    analyzeStep [] s ent =
      { s with entities := s.entities ++
          [⟨ent.text, ent.label, none, none, 0⟩] } :=
  analyzeStep_of_miss [] s ent rfl

theorem foldl_analyzeStep_empty_table (ents : List ExtractedEntity) :
    ∀ s : LoopState,
      (ents.foldl (analyzeStep []) s).icd_codes = s.icd_codes := by
  induction ents with
  | nil => intro s; rfl
  | cons e rest ih =>
      intro s
      rw [List.foldl_cons, analyzeStep_empty_table, ih]

/-- C9: resolution is deterministic and idempotent — the entity-level results
of a request are the entity list mapped through the pure per-entity resolver
`resolve`, so processing the same entity twice against the same table yields
two identical `ResolvedEntity` outputs (the stateful `seen_codes`
deduplication does not affect entity-level results). -/
theorem c9_resolution_deterministic_idempotent (table : LookupTable)
    (ents : List ExtractedEntity) (ent : ExtractedEntity) :
    (processEntities table ents).entities = ents.map (resolve table) ∧
    (processEntities table [ent, ent]).entities =
      [resolve table ent, resolve table ent] := by
  have hmap : ∀ l : List ExtractedEntity,
      (processEntities table l).entities = l.map (resolve table) := by
    intro l
    simp [processEntities, foldl_analyzeStep_entities]
  exact ⟨hmap ents, by rw [hmap [ent, ent]]; rfl⟩

/-- C8: when loading the serialized mapping fails at startup the service
serves with the empty lookup table instead of aborting, and with the empty
table every extracted entity resolves to null code/description with
confidence `0` and the `icd_codes` list of every result is empty. -/
theorem c8_mapping_load_failure_degrades (err : String)
    (ents : List ExtractedEntity) (ent : ExtractedEntity) :
    loadICD11Dict (Except.error err) = [] ∧
    resolve [] ent = ⟨ent.text, ent.label, none, none, 0⟩ ∧
    (processEntities [] ents).entities =
      ents.map (fun e => ⟨e.text, e.label, none, none, 0⟩) ∧
    (processEntities [] ents).icd_codes = [] := by
  refine ⟨rfl, rfl, ?_, ?_⟩
  · rw [show (processEntities [] ents).entities =
        ents.map (resolve []) by
      simp [processEntities, foldl_analyzeStep_entities]]
    exact List.map_congr_left fun e _ => rfl
  · simp [processEntities, foldl_analyzeStep_empty_table]

/-- C5: resolving an extracted entity against the table is total (no
exception on a miss) and binary: a hit copies the matched entry's code and
description with confidence exactly `1`, a miss yields null code and
description with confidence exactly `0`, and no other confidence value is
possible. -/
theorem c5_resolution_outcomes (table : LookupTable) (ent : ExtractedEntity) :
    (∀ icd_info, dictGet table (pyLower (pyStrip ent.text)) = some icd_info →
        resolve table ent =
          ⟨ent.text, ent.label, some icd_info.code, some icd_info.desc, 1⟩) ∧
    (dictGet table (pyLower (pyStrip ent.text)) = none →
        resolve table ent = ⟨ent.text, ent.label, none, none, 0⟩) ∧
    ((resolve table ent).confidence = 1 ∨
      (resolve table ent).confidence = 0) := by
  unfold resolve
  cases h : dictGet table (pyLower (pyStrip ent.text)) with
  | some info =>
      refine ⟨?_, ?_, Or.inl rfl⟩
      · intro info2 h2
        injection h2 with h3
        subst h3
        rfl
      · intro h2
        exact Option.noConfusion h2
  | none =>
      refine ⟨?_, fun _ => rfl, Or.inr rfl⟩
      intro info2 h2
      exact Option.noConfusion h2

theorem c5_resolution_outcomes_witness :
    resolve [("flu", ⟨"1E32", "Influenza"⟩)] ⟨" FLU ", "DISEASE"⟩ =
        ⟨" FLU ", "DISEASE", some "1E32", some "Influenza", 1⟩ ∧
      resolve [] ⟨"flu", "DISEASE"⟩ = ⟨"flu", "DISEASE", none, none, 0⟩ :=
  ⟨(c5_resolution_outcomes [("flu", ⟨"1E32", "Influenza"⟩)]
      ⟨" FLU ", "DISEASE"⟩).1 ⟨"1E32", "Influenza"⟩ (by decide),
   (c5_resolution_outcomes [] ⟨"flu", "DISEASE"⟩).2.1 (by decide)⟩

/-- C2 is false as stated: with `diagnosis="a"`, `prescription=""`,
`treatment="b"` the service joins all three fields and builds `"a  b"` with
two consecutive spaces, while the concatenation of only the non-empty fields
with a single separating space is `"a b"`. -/
theorem c2_counterexample_double_space :
    combinedText (some "a") (some "") (some "b") = "a  b" ∧
      specNonEmptyJoin "a" "" "b" = "a b" ∧
      combinedText (some "a") (some "") (some "b") ≠
        specNonEmptyJoin "a" "" "b" := by decide

/-- C2 (amended): the text passed onward to the extractor is all three
fields — empty ones included — joined with a single space between each
adjacent pair and then trimmed, so two consecutive spaces are introduced
when a middle field is empty and its neighbours are not. -/
theorem c2_combined_text_joins_all_fields (table : LookupTable)
    (extractor : String → List ExtractedEntity)
    (diagnosis prescription treatment : Option String)
    (h : combinedText diagnosis prescription treatment ≠ "") :
    analyze table extractor diagnosis prescription treatment =
      Except.ok (processEntities table
        (extractor (combinedText diagnosis prescription treatment))) ∧
    combinedText diagnosis prescription treatment =
      pyStrip ((diagnosis.getD "") ++ " " ++ (prescription.getD "") ++ " " ++
        (treatment.getD "")) := by
  refine ⟨?_, rfl⟩
  rw [analyze, analyzeBody]
  simp only [h, if_false, reduceIte]

theorem c2_combined_text_joins_all_fields_witness :
    combinedText (some "flu") none none ≠ "" ∧
      analyze [] (fun _ => []) (some "flu") none none =
        Except.ok (processEntities []
          ((fun _ => ([] : List ExtractedEntity))
            (combinedText (some "flu") none none))) :=
  ⟨by decide,
   (c2_combined_text_joins_all_fields [] (fun _ => []) (some "flu") none none
      (by decide)).1⟩

/-- C1 (code bug): with all three fields empty the endpoint reaches the
`HTTPException(400, "No text provided.")` raise without invoking the
extractor (the result does not depend on the extractor at all), but the
`except Exception` handler on lines 97-99 catches that exception — FastAPI's
`HTTPException` subclasses `Exception` — so the request is answered with
status 500, the `Internal` signal, instead of the distinct client-fault
400. -/
theorem c1_empty_fields_answered_with_500 (table : LookupTable)
    (ext ext2 : String → List ExtractedEntity) :
    analyze table ext (some "") (some "") (some "") =
      Except.error ⟨500, httpExceptionStr ⟨400, "No text provided."⟩⟩ ∧
    analyze table ext (some "") (some "") (some "") =
      analyze table ext2 (some "") (some "") (some "") :=
  ⟨rfl, rfl⟩

/-- C6: in every analyze result the `icd_codes` list holds pairwise distinct
codes, and each of its elements corresponds to the *first* entity in
extraction order whose resolution maps to that code, carrying that entity's
original (un-normalized) extracted text in its `entity` field. -/
theorem c6_icd_codes_dedup_first_wins (table : LookupTable)
    (ents : List ExtractedEntity) :
    ((processEntities table ents).icd_codes.map CodeResult.icd_code).Nodup ∧
    ∀ cr ∈ (processEntities table ents).icd_codes,
      ∃ e, ents.find?
          (fun x => decide (matchedCode table x = some cr.icd_code)) =
            some e ∧
        cr.entity = e.text := by
  have h0 : SeenInv ⟨[], [], []⟩ := by
    refine ⟨List.nodup_nil, ?_, ?_⟩
    · intro c; simp
    · intro cr hcr; simp at hcr
  constructor
  · exact (seenInv_foldl table ents ⟨[], [], []⟩ h0).1
  · intro cr hcr
    exact (foldl_icd_codes_first_match table ents ⟨[], [], []⟩ h0 cr hcr
      (by simp)).2

theorem c6_icd_codes_dedup_first_wins_witness :
    (((processEntities [("fracture", ⟨"FA01", "Fracture"⟩)]
        [⟨"fracture", "D"⟩, ⟨"Fracture", "D"⟩]).icd_codes.map
          CodeResult.icd_code).Nodup) ∧
    ∃ e, [(⟨"fracture", "D"⟩ : ExtractedEntity), ⟨"Fracture", "D"⟩].find?
        (fun x => decide (matchedCode [("fracture", ⟨"FA01", "Fracture"⟩)] x =
          some "FA01")) = some e ∧ "fracture" = e.text :=
  ⟨(c6_icd_codes_dedup_first_wins [("fracture", ⟨"FA01", "Fracture"⟩)]
      [⟨"fracture", "D"⟩, ⟨"Fracture", "D"⟩]).1,
   (c6_icd_codes_dedup_first_wins [("fracture", ⟨"FA01", "Fracture"⟩)]
      [⟨"fracture", "D"⟩, ⟨"Fracture", "D"⟩]).2
     ⟨"fracture", "FA01", some "Fracture", 1⟩ (by decide)⟩

/-- C10: when every table entry has a non-empty code (true of every table the
builder produces and of the empty fallback table), each element of
`icd_codes` has confidence exactly `1` and a non-empty code, and the set of
codes in `icd_codes` equals the set of codes appearing (as non-null
`icd_code`) in the `entities` list. -/
theorem c10_icd_codes_set_matches_entities (table : LookupTable)
    (ents : List ExtractedEntity)
    (htable : ∀ p ∈ table, p.2.code ≠ "") :
    (∀ cr ∈ (processEntities table ents).icd_codes,
        cr.confidence = 1 ∧ cr.icd_code ≠ "") ∧
    ∀ c : String,
      (∃ cr ∈ (processEntities table ents).icd_codes, cr.icd_code = c) ↔
      (∃ er ∈ (processEntities table ents).entities, er.icd_code = some c) := by
  have h0 : SeenInv ⟨[], [], []⟩ := by
    refine ⟨List.nodup_nil, ?_, ?_⟩
    · intro c; simp
    · intro cr hcr; simp at hcr
  have hfin : SeenInv (ents.foldl (analyzeStep table) ⟨[], [], []⟩) :=
    seenInv_foldl table ents ⟨[], [], []⟩ h0
  have hents : (processEntities table ents).entities =
      ents.map (resolve table) := by
    simp [processEntities, foldl_analyzeStep_entities]
  constructor
  · intro cr hcr
    exact hfin.2.2 cr hcr
  · intro c
    constructor
    · rintro ⟨cr, hcr, hcrc⟩
      obtain ⟨hne, e, hfind, _⟩ :=
        foldl_icd_codes_first_match table ents ⟨[], [], []⟩ h0 cr hcr (by simp)
      have hmc : matchedCode table e = some cr.icd_code := by
        have := List.find?_some hfind
        simpa using this
      refine ⟨resolve table e, ?_, ?_⟩
      · rw [hents]
        exact List.mem_map.mpr ⟨e, List.mem_of_find?_eq_some hfind, rfl⟩
      · rw [resolve_icd_code_eq_matchedCode, hmc, hcrc]
    · rintro ⟨er, her, herc⟩
      rw [hents] at her
      obtain ⟨e, he, hre⟩ := List.mem_map.mp her
      have hmc : matchedCode table e = some c := by
        rw [← resolve_icd_code_eq_matchedCode, hre, herc]
      have hcne : c ≠ "" := by
        unfold matchedCode at hmc
        cases hd : dictGet table (pyLower (pyStrip e.text)) with
        | none => rw [hd] at hmc; cases hmc
        | some info =>
            rw [hd] at hmc
            cases hmc
            exact htable _ (dictGet_mem table _ info hd)
      have hseen : c ∈ (ents.foldl (analyzeStep table)
          ⟨[], [], []⟩).seen_codes :=
        matched_mem_seen_foldl table ents c ⟨[], [], []⟩ e he hmc hcne
      have hmem := (hfin.2.1 c).mp hseen
      obtain ⟨cr, hcr, hcrc⟩ := List.mem_map.mp hmem
      exact ⟨cr, hcr, hcrc⟩

theorem c10_icd_codes_set_matches_entities_witness :
    (∀ p ∈ [("fracture", (⟨"FA01", "Fracture"⟩ : TaxonomyEntry))],
        p.2.code ≠ "") ∧
    ∀ cr ∈ (processEntities [("fracture", ⟨"FA01", "Fracture"⟩)]
        [⟨"fracture", "D"⟩]).icd_codes,
      cr.confidence = 1 ∧ cr.icd_code ≠ "" :=
  ⟨by decide,
   (c10_icd_codes_set_matches_entities [("fracture", ⟨"FA01", "Fracture"⟩)]
      [⟨"fracture", "D"⟩] (by decide)).1⟩
